import Mathlib

/-!
Verification of the MARC line-record codec of the MARCoBot repository.

The embedding models Python strings as `List Char`.  Python behaviour that the
source exercises only on ASCII data (the `str.strip` whitespace set, the regex
classes `\d`, `\s`, `[a-zA-Z]`, and `str.isdigit`) is modelled over the ASCII
character set; every line the repository manipulates is built from the ASCII
wire syntax `=TAG  ...` so this restriction is faithful on the codec's domain.

Embedded source functions:
  * `mrk_str_to_field`        — src/engine/mrk_helpers.py, lines 12-83
                                 (the string path; the duck-typed passthrough
                                 for objects that are already fields and the
                                 `str()` coercion concern non-string inputs
                                 and are outside the string -> field codec)
  * `record_to_mrk_from_record` and its per-field body `fieldToMrkLine`
                                — src/engine/mrk_helpers.py, lines 89-134
  * `utils_mrk_str_to_field`  — src/engine/utils.py, lines 1820-1862
  * `build_008_kormarc_bk`    — src/engine/utils.py, lines 449-497
                                 (textually identical to the copy in
                                 src/engine/field_builders.py, lines 336-377)
-/

/-- Python strings are modelled as lists of characters. -/
abbrev Chars := List Char

/-- The ASCII whitespace characters recognised by Python `str.strip()` and by
the regex class `\s`. -/
def pyWs (c : Char) : Bool :=
  c == ' ' || c == '\t' || c == '\n' || c == '\r' || c == '\x0b' || c == '\x0c'

/-- Leading-whitespace removal, the left half of Python `str.strip()`. -/
def lstripWs (l : Chars) : Chars := l.dropWhile pyWs

/-- Trailing-whitespace removal, the right half of Python `str.strip()`. -/
def rstripWs (l : Chars) : Chars := ((l.reverse).dropWhile pyWs).reverse

/-- Python `str.strip()`. -/
def pstrip (l : Chars) : Chars := rstripWs (lstripWs l)

/-- Python `str.isdigit()` (true on a non-empty all-digit string). -/
def pyIsdigit (l : Chars) : Bool := !l.isEmpty && l.all Char.isDigit

/-- Numeric value of a digit string, the value Python `int(tag)` computes on
the three-digit tags produced by the regexes below. -/
def tagNum (t : Chars) : Nat := t.foldl (fun n c => 10 * n + (c.toNat - 48)) 0

/-- Python `s.startswith("=")`. -/
def startsWithEq : Chars → Bool
  | '=' :: _ => true
  | _ => false

/-- The group captured by an anchored trailing `(.*)$` in a Python regex
without DOTALL: the remaining text must be newline-free, except that one
newline at the very end is tolerated (the `$` anchor matches before it) and
excluded from the group. -/
def dotStar (rest : Chars) : Option Chars :=
  if rest.contains '\n' then
    if rest.getLast? = some '\n' ∧ rest.dropLast.contains '\n' = false then
      some rest.dropLast
    else none
  else some rest

/-- Match of `^=(\d{3})\s{2}(.)(.)(.*)$` (the data-field line shape used by
both parser copies), returning the captured tag, the two indicator
characters and the tail. -/
def reDataShape (s : Chars) : Option (Chars × Char × Char × Chars) :=
  match s with
  | '=' :: d1 :: d2 :: d3 :: w1 :: w2 :: c1 :: c2 :: rest =>
    if d1.isDigit && d2.isDigit && d3.isDigit && pyWs w1 && pyWs w2
        && c1 != '\n' && c2 != '\n' then
      match dotStar rest with
      | some tail => some ([d1, d2, d3], c1, c2, tail)
      | none => none
    else none
  | _ => none

/-- Match of `^=(\d{3})\s\s(.*)$` (the control-field fallback shape in
mrk_helpers), returning the captured tag and data. -/
def reCtlShape (s : Chars) : Option (Chars × Chars) :=
  match s with
  | '=' :: d1 :: d2 :: d3 :: w1 :: w2 :: rest =>
    if d1.isDigit && d2.isDigit && d3.isDigit && pyWs w1 && pyWs w2 then
      match dotStar rest with
      | some g => some ([d1, d2, d3], g)
      | none => none
    else none
  | _ => none

/-- A pymarc field: a control field carrying an opaque data payload, or a
data field carrying two indicator characters and an ordered subfield list. -/
inductive PField where
  | control (tag : Chars) (data : Chars)
  | dataf (tag : Chars) (ind1 ind2 : Char) (subfields : List (Char × Chars))
  deriving DecidableEq

/-- One step of the subfield-scanning while-loop of mrk_helpers
`mrk_str_to_field` (source lines 63-77).  The state is `none` while skipping
to the next `$`, and `some (code, buf)` while accumulating the value of the
subfield whose code has been read; on each flush the value is stripped and
the pair is kept only when the stripped value is non-empty. -/
def scanStep : Option (Char × Chars) → Chars → List (Char × Chars)
  | none, [] => []
  | some (code, buf), [] =>
    if pstrip buf = [] then [] else [(code, pstrip buf)]
  | none, c :: rest =>
    if c = '$' then
      match rest with
      | [] => []
      | code :: rest2 => scanStep (some (code, [])) rest2
    else scanStep none rest
  | some (code, buf), c :: rest =>
    if c = '$' then
      (if pstrip buf = [] then [] else [(code, pstrip buf)]) ++
      (match rest with
       | [] => []
       | code2 :: rest2 => scanStep (some (code2, [])) rest2)
    else scanStep (some (code, buf ++ [c])) rest

/-- The parser of src/engine/mrk_helpers.py (lines 12-83), on string input:
strip, reject short or `=`-less lines, try the data-field shape (diverting
tags below 10 to a control field), else try the control-field shape. -/
def mrk_str_to_field (line : Chars) : Option PField :=
  let s := pstrip line
  if !startsWithEq s || s.length < 8 then none
  else
    match reDataShape s with
    | some (tag, c1, c2, tail) =>
      if pyIsdigit tag ∧ tagNum tag < 10 then
        let data := pstrip (c1 :: c2 :: tail)
        if data = [] then none else some (.control tag data)
      else
        let ind1 := if c1 = '\\' then ' ' else c1
        let ind2 := if c2 = '\\' then ' ' else c2
        if !tail.contains '$' then none
        else
          let subs := scanStep none tail
          if subs = [] then none else some (.dataf tag ind1 ind2 subs)
    | none =>
      match reCtlShape s with
      | some (tag, g) =>
        if pyIsdigit tag ∧ tagNum tag < 10 then
          let data := pstrip g
          if data = [] then none else some (.control tag data)
        else none
      | none => none

/-- Indicator display of the serializer: a blank indicator is written as a
backslash (mrk_helpers lines 107-109). -/
def indDisp (c : Char) : Char := if c = ' ' then '\\' else c

/-- The two internal subfield representations the serializer tolerates
(mrk_helpers lines 111-126): a list of structured `Subfield` objects, or the
old-style flat alternating list `[code, value, code, value, ...]` whose
entries are strings. -/
inductive SubsRep where
  | objList (subs : List (Char × Chars))
  | flatList (items : List Chars)

/-- Python `zip(it, it)` over one shared iterator: consecutive pairing that
drops a trailing odd element. -/
def pairUp : List Chars → List (Chars × Chars)
  | x :: y :: rest => (x, y) :: pairUp rest
  | _ => []

/-- The `parts` string the serializer accumulates for one data field
(mrk_helpers lines 112-126): each subfield contributes `$code` then the
value, in stored order.  An empty structured list falls into the flat-list
branch in the source; both produce the empty string. -/
def partsOfRep : SubsRep → Chars
  | .objList subs => subs.foldl (fun acc cv => acc ++ '$' :: cv.1 :: cv.2) []
  | .flatList items =>
    (pairUp items).foldl (fun acc cv => acc ++ '$' :: (cv.1 ++ cv.2)) []

/-- The data-field line the serializer emits (mrk_helpers line 128):
`=TAG  ` then the two displayed indicators then the subfield parts. -/
def dataFieldLine (tag : Chars) (i1 i2 : Char) (rep : SubsRep) : Chars :=
  ('=' :: tag) ++ [' ', ' ', indDisp i1, indDisp i2] ++ partsOfRep rep

/-- Tag of a field. -/
def PField.tag : PField → Chars
  | .control t _ => t
  | .dataf t _ _ _ => t

/-- The `f.data or ""` read of the serializer: a field without a data payload
contributes the empty string. -/
def PField.dataOrEmpty : PField → Chars
  | .control _ d => d
  | .dataf _ _ _ _ => []

/-- First indicator as the serializer reads it, defaulting a missing
indicator to a blank. -/
def PField.ind1 : PField → Char
  | .control _ _ => ' '
  | .dataf _ i _ _ => i

/-- Second indicator as the serializer reads it, defaulting a missing
indicator to a blank. -/
def PField.ind2 : PField → Char
  | .control _ _ => ' '
  | .dataf _ _ i _ => i

/-- Subfield representation stored on a field built by the parser: always the
structured object list (empty for a control field). -/
def PField.subsRep : PField → SubsRep
  | .control _ _ => .objList []
  | .dataf _ _ _ s => .objList s

/-- The per-field body of `record_to_mrk_from_record` (mrk_helpers lines
96-128): a numeric tag below 10 is emitted as a control line `=TAG  data`,
anything else as a data-field line. -/
def fieldToMrkLine (f : PField) : Chars :=
  if pyIsdigit f.tag ∧ tagNum f.tag < 10 then
    ('=' :: f.tag) ++ [' ', ' '] ++ f.dataOrEmpty
  else
    dataFieldLine f.tag f.ind1 f.ind2 f.subsRep

/-- The serializer of src/engine/mrk_helpers.py (lines 89-134): one leader
line `=LDR  ...` followed by one line per field, joined with newlines. -/
def record_to_mrk_from_record (leader : Chars) (fields : List PField) : Chars :=
  List.intercalate ['\n']
    ((("=LDR  ".data) ++ leader) :: fields.map fieldToMrkLine)

/-- ASCII letter, the regex class `[a-zA-Z]` of the utils parser copy. -/
def isAsciiLetter (c : Char) : Bool := c.isLower || c.isUpper

/-- Prepending a chunk of text to the first piece of a split result. -/
def prependHead (x : Chars) : List Chars → List Chars
  | [] => [x]
  | h :: t => (x ++ h) :: t

/-- Python `re.split(r"(\$[a-zA-Z])", tail)`: the pieces of `tail` around
each `$letter` delimiter, the captured delimiters included, with an empty
piece wherever two delimiters are adjacent or a delimiter touches an end. -/
def splitDL : Chars → List Chars
  | [] => [[]]
  | c :: rest =>
    if c = '$' then
      match rest with
      | [] => [['$']]
      | c2 :: rest2 =>
        if isAsciiLetter c2 then [] :: ['$', c2] :: splitDL rest2
        else prependHead ['$'] (splitDL (c2 :: rest2))
    else prependHead [c] (splitDL rest)

/-- The flush of the utils-parser loop (utils lines 1848-1860): a pending
code with a non-empty buffer is emitted with the buffer stripped, even when
stripping empties it. -/
def flushU (cur : Option Char) (buf : Chars) : List (Char × Chars) :=
  match cur with
  | some c => if buf = [] then [] else [(c, pstrip buf)]
  | none => []

/-- The piece-consuming loop of the utils parser copy (utils lines
1847-1860): empty pieces are skipped, a two-character piece starting with `$`
flushes the pending subfield and starts a new code, and any other piece is
appended to the buffer. -/
def utilsLoop (cur : Option Char) (buf : Chars) : List Chars → List (Char × Chars)
  | [] => flushU cur buf
  | p :: ps =>
    if p = [] then utilsLoop cur buf ps
    else if p.length = 2 ∧ p.head? = some '$' then
      flushU cur buf ++ utilsLoop (some (p.getD 1 ' ')) [] ps
    else utilsLoop cur (buf ++ p) ps

/-- Match of `^=\d{3}\s\s[^$]+$` (the control-field test of the utils parser
copy, line 1829).  Because `[^$]` also matches a newline, the pattern
matches exactly when the text after the two spaces is non-empty and free of
`$`. -/
def reCtlNoDollar (s : Chars) : Bool :=
  match s with
  | '=' :: d1 :: d2 :: d3 :: w1 :: w2 :: rest =>
    d1.isDigit && d2.isDigit && d3.isDigit && pyWs w1 && pyWs w2
      && !rest.isEmpty && !rest.contains '$'
  | _ => false

/-- The near-duplicate parser copy of src/engine/utils.py (lines 1820-1862):
rejects falsy or short input, returns a control field on the `$`-free
control shape with tag below 10 (data taken unstripped from position 6),
otherwise matches the data-field shape and splits the tail on `$letter`
markers — with no minimum-subfield or tag check on that path. -/
def utils_mrk_str_to_field (line : Chars) : Option PField :=
  if line.isEmpty then none
  else
    let s := pstrip line
    if !startsWithEq s || s.length < 6 then none
    else if reCtlNoDollar s ∧ tagNum ((s.drop 1).take 3) < 10 then
      some (.control ((s.drop 1).take 3) (s.drop 6))
    else
      match reDataShape s with
      | some (tag, c1, c2, tail) =>
        let ind1 := if c1 = '\\' then ' ' else c1
        let ind2 := if c2 = '\\' then ' ' else c2
        some (.dataf tag ind1 ind2 (utilsLoop none [] (splitDL tail)))
      | none => none

/-- Right-space padding/truncation to a fixed width: Python
`(s[:n] + fill * n)[:n]` (utils lines 463-465). -/
def pad (s : Chars) (n : Nat) (fill : Char) : Chars :=
  (s.take n ++ List.replicate n fill).take n

/-- The 40-character 008 body builder of src/engine/utils.py (lines 449-497),
identical to the copy in src/engine/field_builders.py (lines 336-377).
Raising is modelled as `Except.error` carrying the message; the parameters
keep the order of the Python signature. -/
def build_008_kormarc_bk (date_entered date1 country3 lang3 date2 illus4
    has_index lit_form bio type_of_date modified_record cataloging_src : Chars) :
    Except Chars Chars :=
  if date_entered.length ≠ 6 ∨ pyIsdigit date_entered = false then
    .error ("date_entered는 YYMMDD 6자리 숫자여야 합니다.".data)
  else if date1.length ≠ 4 then
    .error ("date1(출판연도)은 4자리여야 합니다.".data)
  else
    let body :=
      date_entered ++ pad type_of_date 1 ' ' ++ date1 ++ pad date2 4 ' ' ++
      pad country3 3 ' ' ++ pad illus4 4 ' ' ++ List.replicate 4 ' ' ++
      List.replicate 2 ' ' ++ pad modified_record 1 ' ' ++ ['0'] ++ ['0'] ++
      (if has_index = ['0'] ∨ has_index = ['1'] then has_index else ['0']) ++
      pad cataloging_src 1 ' ' ++ pad lit_form 1 ' ' ++ pad bio 1 ' ' ++
      pad lang3 3 ' ' ++ List.replicate 2 ' '
    if body.length ≠ 40 then
      .error (("008 length != 40: ".data) ++ Nat.toDigits 10 body.length)
    else .ok body

/-- Serialized form of the subfield list, as the flat chunks
`['$', code] ++ value` in order; the foldl of the serializer equals the
concatenation of these chunks. -/
def partsFlat : List (Char × Chars) → Chars
  | [] => []
  | (c, v) :: r => '$' :: c :: (v ++ partsFlat r)

/-- The old-style flat alternating encoding of a structured subfield list. -/
def flatPairs : List (Char × Chars) → List Chars
  | [] => []
  | (c, v) :: r => [c] :: v :: flatPairs r

/-- The tail of the `re.split` pieces of a serialized subfield string:
one `$code` delimiter piece then one value piece per subfield. -/
def piecesTail : List (Char × Chars) → List Chars
  | [] => []
  | (c, v) :: r => ['$', c] :: v :: piecesTail r

/-- The canonical well-formed fields on which the two parser copies are
compared: control fields with a three-digit tag below 10 and a payload of
length at least two that is free of `$` and newlines and strip-invariant;
data fields with a three-digit tag of at least 10, non-whitespace
non-backslash indicators, and at least one subfield whose code is an ASCII
letter and whose value is non-empty, free of `$` and newlines, and
strip-invariant. -/
def c9Class : PField → Prop
  | .control tag data =>
      tag.length = 3 ∧ (∀ c ∈ tag, c.isDigit = true) ∧ tagNum tag < 10 ∧
      2 ≤ data.length ∧ '$' ∉ data ∧ '\n' ∉ data ∧ pstrip data = data
  | .dataf tag i1 i2 subs =>
      tag.length = 3 ∧ (∀ c ∈ tag, c.isDigit = true) ∧ 10 ≤ tagNum tag ∧
      pyWs i1 = false ∧ i1 ≠ '\\' ∧ pyWs i2 = false ∧ i2 ≠ '\\' ∧
      subs ≠ [] ∧
      ∀ cv ∈ subs, isAsciiLetter cv.1 = true ∧ cv.2 ≠ [] ∧ '$' ∉ cv.2 ∧
        '\n' ∉ cv.2 ∧ pstrip cv.2 = cv.2

/-! ## Helper lemmas about Python string stripping -/

theorem length_dropWhile_le (p : Char → Bool) (l : Chars) :
    (l.dropWhile p).length ≤ l.length := by
  induction l with
  | nil => simp [List.dropWhile]
  | cons a t ih =>
    simp only [List.dropWhile_cons]
    split
    · exact le_trans ih (Nat.le_succ _)
    · simp

theorem lstripWs_of_head {l : Chars}
    (h : ∀ c, l.head? = some c → pyWs c = false) : lstripWs l = l := by
  cases l with
  | nil => rfl
  | cons a t => simp [lstripWs, List.dropWhile_cons, h a rfl]

theorem rstripWs_of_getLast {l : Chars}
    (h : ∀ c, l.getLast? = some c → pyWs c = false) : rstripWs l = l := by
  have hrev : lstripWs l.reverse = l.reverse := by
    apply lstripWs_of_head
    intro c hc
    exact h c (by rwa [List.head?_reverse] at hc)
  unfold rstripWs
  unfold lstripWs at hrev
  rw [hrev, List.reverse_reverse]

theorem pstrip_eq_self {l : Chars}
    (h1 : ∀ c, l.head? = some c → pyWs c = false)
    (h2 : ∀ c, l.getLast? = some c → pyWs c = false) : pstrip l = l := by
  unfold pstrip
  rw [lstripWs_of_head h1, rstripWs_of_getLast h2]

theorem length_rstripWs_le (l : Chars) : (rstripWs l).length ≤ l.length := by
  unfold rstripWs
  rw [List.length_reverse]
  calc (l.reverse.dropWhile pyWs).length ≤ l.reverse.length :=
        length_dropWhile_le pyWs l.reverse
    _ = l.length := List.length_reverse l

theorem length_lstripWs_le (l : Chars) : (lstripWs l).length ≤ l.length :=
  length_dropWhile_le pyWs l

theorem head_not_ws_of_dropWhile_eq {p : Char → Bool} {l : Chars}
    (h : l.dropWhile p = l) : ∀ c, l.head? = some c → p c = false := by
  intro c hc
  cases l with
  | nil => simp at hc
  | cons a t =>
    obtain rfl : a = c := by simpa using hc
    by_contra hp
    rw [Bool.not_eq_false] at hp
    rw [List.dropWhile_cons, if_pos hp] at h
    have := length_dropWhile_le p t
    have := congrArg List.length h
    simp at this
    omega

theorem lstrip_eq_of_pstrip {l : Chars} (h : pstrip l = l) : lstripWs l = l := by
  have hlen : (pstrip l).length = l.length := by rw [h]
  have h1 : (pstrip l).length ≤ (lstripWs l).length := length_rstripWs_le _
  have h2 : (lstripWs l).length ≤ l.length := length_lstripWs_le l
  have hl : (lstripWs l).length = l.length := by omega
  cases hl' : l with
  | nil => rfl
  | cons a t =>
    subst hl'
    by_cases hp : pyWs a
    · exfalso
      have : lstripWs (a :: t) = t.dropWhile pyWs := by
        simp [lstripWs, List.dropWhile_cons, hp]
      rw [this] at hl
      have := length_dropWhile_le pyWs t
      simp at hl
      omega
    · simp [lstripWs, List.dropWhile_cons, hp]

theorem rstrip_eq_of_pstrip {l : Chars} (h : pstrip l = l) : rstripWs l = l := by
  have hl := lstrip_eq_of_pstrip h
  unfold pstrip at h
  rwa [hl] at h

theorem head_not_ws_of_pstrip {l : Chars} (h : pstrip l = l) :
    ∀ c, l.head? = some c → pyWs c = false :=
  head_not_ws_of_dropWhile_eq (lstrip_eq_of_pstrip h)

theorem getLast_not_ws_of_pstrip {l : Chars} (h : pstrip l = l) :
    ∀ c, l.getLast? = some c → pyWs c = false := by
  have hr := rstrip_eq_of_pstrip h
  have hrev : l.reverse.dropWhile pyWs = l.reverse := by
    have := congrArg List.reverse hr
    rwa [rstripWs, List.reverse_reverse] at this
  intro c hc
  exact head_not_ws_of_dropWhile_eq hrev c (by rw [List.head?_reverse]; exact hc)

theorem contains_eq_true {l : Chars} {a : Char} (h : a ∈ l) :
    l.contains a = true :=
  List.elem_iff.mpr h

theorem contains_eq_false {l : Chars} {a : Char} (h : a ∉ l) :
    l.contains a = false := by
  cases hc : l.elem a with
  | false => exact hc
  | true => exact absurd (List.elem_iff.mp hc) h

theorem getLast?_append_of_ne_nil {l1 l2 : Chars} (h : l2 ≠ []) :
    (l1 ++ l2).getLast? = l2.getLast? := by
  rw [List.getLast?_append]
  cases hl : l2.getLast? with
  | some x => rfl
  | none =>
    exfalso
    cases l2 with
    | nil => exact h rfl
    | cons a t => simp [List.getLast?_eq_getLast] at hl

/-! ## Equations of the subfield scanning loop -/

theorem scanStep_none_skip {c : Char} (h : c ≠ '$') (rest : Chars) :
    scanStep none (c :: rest) = scanStep none rest := by
  rw [scanStep.eq_def]
  simp [h]

theorem scanStep_none_dollar (code : Char) (rest : Chars) :
    scanStep none ('$' :: code :: rest) = scanStep (some (code, [])) rest := by
  rw [scanStep.eq_def]
  simp

theorem scanStep_some_char {code : Char} {buf : Chars} {c : Char} (h : c ≠ '$')
    (rest : Chars) :
    scanStep (some (code, buf)) (c :: rest)
      = scanStep (some (code, buf ++ [c])) rest := by
  rw [scanStep.eq_def]
  simp [h]

theorem scanStep_some_nil (code : Char) (buf : Chars) :
    scanStep (some (code, buf)) []
      = if pstrip buf = [] then [] else [(code, pstrip buf)] := rfl

theorem scanStep_some_dollar (code : Char) (buf : Chars) (rest : Chars) :
    scanStep (some (code, buf)) ('$' :: rest)
      = (if pstrip buf = [] then [] else [(code, pstrip buf)]) ++
        (match rest with
         | [] => []
         | code2 :: rest2 => scanStep (some (code2, [])) rest2) := by
  rw [scanStep.eq_def]
  simp
  try rfl

theorem scanStep_value_rest {code : Char} {v : Chars} (hv : '$' ∉ v) :
    ∀ buf : Chars, scanStep (some (code, buf)) v
      = if pstrip (buf ++ v) = [] then [] else [(code, pstrip (buf ++ v))] := by
  induction v with
  | nil => intro buf; simp [scanStep_some_nil]
  | cons a t ih =>
    intro buf
    have ha : a ≠ '$' := fun h => hv (h ▸ List.mem_cons_self a t)
    rw [scanStep_some_char ha, ih (fun h => hv (List.mem_cons_of_mem _ h))]
    simp

theorem scanStep_value_dollar {code : Char} {v : Chars} (hv : '$' ∉ v)
    (l : Chars) :
    ∀ buf : Chars, scanStep (some (code, buf)) (v ++ '$' :: l)
      = (if pstrip (buf ++ v) = [] then [] else [(code, pstrip (buf ++ v))]) ++
        (match l with
         | [] => []
         | code2 :: rest2 => scanStep (some (code2, [])) rest2) := by
  induction v with
  | nil => intro buf; simpa using scanStep_some_dollar code buf l
  | cons a t ih =>
    intro buf
    have ha : a ≠ '$' := fun h => hv (h ▸ List.mem_cons_self a t)
    rw [List.cons_append, scanStep_some_char ha,
      ih (fun h => hv (List.mem_cons_of_mem _ h))]
    simp

theorem scanStep_from_code {subs : List (Char × Chars)}
    (hsubs : ∀ cv ∈ subs, '$' ∉ cv.2 ∧ pstrip cv.2 = cv.2 ∧ cv.2 ≠ []) :
    ∀ (code : Char) (v : Chars), '$' ∉ v → pstrip v = v → v ≠ [] →
      scanStep (some (code, [])) (v ++ partsFlat subs) = (code, v) :: subs := by
  induction subs with
  | nil =>
    intro code v hv hsv hne
    rw [show partsFlat [] = [] from rfl, List.append_nil,
      scanStep_value_rest hv []]
    simp [hsv, hne]
  | cons cv r ih =>
    intro code v hv hsv hne
    obtain ⟨c2, v2⟩ := cv
    rw [show partsFlat ((c2, v2) :: r) = '$' :: (c2 :: (v2 ++ partsFlat r))
      from rfl]
    rw [scanStep_value_dollar hv (c2 :: (v2 ++ partsFlat r)) []]
    have h2 := hsubs (c2, v2) (List.mem_cons_self _ _)
    have hrest : ∀ cv ∈ r, '$' ∉ cv.2 ∧ pstrip cv.2 = cv.2 ∧ cv.2 ≠ [] :=
      fun cv hcv => hsubs cv (List.mem_cons_of_mem _ hcv)
    simp only []
    rw [ih hrest c2 v2 h2.1 h2.2.1 h2.2.2]
    simp [hsv, hne]

theorem scanStep_partsFlat {subs : List (Char × Chars)} (hne : subs ≠ [])
    (hsubs : ∀ cv ∈ subs, '$' ∉ cv.2 ∧ pstrip cv.2 = cv.2 ∧ cv.2 ≠ []) :
    scanStep none (partsFlat subs) = subs := by
  cases subs with
  | nil => exact absurd rfl hne
  | cons cv r =>
    obtain ⟨c, v⟩ := cv
    rw [show partsFlat ((c, v) :: r) = '$' :: c :: (v ++ partsFlat r) from rfl,
      scanStep_none_dollar]
    have h1 := hsubs (c, v) (List.mem_cons_self _ _)
    exact scanStep_from_code
      (fun cv hcv => hsubs cv (List.mem_cons_of_mem _ hcv)) c v h1.1 h1.2.1
      h1.2.2

theorem foldl_parts (subs : List (Char × Chars)) :
    ∀ acc : Chars,
      subs.foldl (fun a cv => a ++ '$' :: cv.1 :: cv.2) acc
        = acc ++ partsFlat subs := by
  induction subs with
  | nil => intro acc; simp [partsFlat]
  | cons cv r ih =>
    intro acc
    obtain ⟨c, v⟩ := cv
    rw [List.foldl_cons, ih, show partsFlat ((c, v) :: r)
      = '$' :: c :: (v ++ partsFlat r) from rfl]
    simp

theorem partsOfRep_objList (subs : List (Char × Chars)) :
    partsOfRep (.objList subs) = partsFlat subs := by
  simpa using foldl_parts subs []

/-! ## Facts about the serialized subfield string -/

theorem partsFlat_ne_nil {subs : List (Char × Chars)} (h : subs ≠ []) :
    partsFlat subs ≠ [] := by
  cases subs with
  | nil => exact absurd rfl h
  | cons cv r => simp [partsFlat]

theorem dollar_mem_partsFlat {subs : List (Char × Chars)} (h : subs ≠ []) :
    '$' ∈ partsFlat subs := by
  cases subs with
  | nil => exact absurd rfl h
  | cons cv r =>
    obtain ⟨c, v⟩ := cv
    rw [show partsFlat ((c, v) :: r) = '$' :: c :: (v ++ partsFlat r) from rfl]
    exact List.mem_cons_self _ _

theorem nl_not_mem_partsFlat {subs : List (Char × Chars)}
    (h : ∀ cv ∈ subs, cv.1 ≠ '\n' ∧ '\n' ∉ cv.2) : '\n' ∉ partsFlat subs := by
  induction subs with
  | nil => simp [partsFlat]
  | cons cv r ih =>
    obtain ⟨c, v⟩ := cv
    have hc := h (c, v) (List.mem_cons_self _ _)
    rw [show partsFlat ((c, v) :: r) = '$' :: c :: (v ++ partsFlat r) from rfl]
    intro hmem
    rcases List.mem_cons.mp hmem with h1 | hmem
    · exact absurd h1.symm (by decide)
    rcases List.mem_cons.mp hmem with h1 | hmem
    · exact hc.1 h1.symm
    rcases List.mem_append.mp hmem with h1 | h1
    · exact hc.2 h1
    · exact ih (fun cv hcv => h cv (List.mem_cons_of_mem _ hcv)) h1

theorem getLast?_partsFlat {subs : List (Char × Chars)} (hne : subs ≠ [])
    (hsubs : ∀ cv ∈ subs, pstrip cv.2 = cv.2 ∧ cv.2 ≠ []) :
    ∃ c, (partsFlat subs).getLast? = some c ∧ pyWs c = false := by
  induction subs with
  | nil => exact absurd rfl hne
  | cons cv r ih =>
    obtain ⟨c, v⟩ := cv
    have hv := hsubs (c, v) (List.mem_cons_self _ _)
    rw [show partsFlat ((c, v) :: r) = ['$', c] ++ (v ++ partsFlat r) from rfl]
    by_cases hr : r = []
    · subst hr
      rw [show partsFlat ([] : List (Char × Chars)) = [] from rfl,
        List.append_nil, getLast?_append_of_ne_nil hv.2]
      cases hlast : v.getLast? with
      | none =>
        exfalso
        cases hv' : v with
        | nil => exact hv.2 hv'
        | cons a t => rw [hv'] at hlast; simp [List.getLast?_eq_getLast] at hlast
      | some x =>
        exact ⟨x, rfl, getLast_not_ws_of_pstrip hv.1 x hlast⟩
    · have hpf : partsFlat r ≠ [] := partsFlat_ne_nil hr
      obtain ⟨x, hx, hwx⟩ := ih hr (fun cv hcv => hsubs cv
        (List.mem_cons_of_mem _ hcv))
      refine ⟨x, ?_, hwx⟩
      have hvp : v ++ partsFlat r ≠ [] := fun hc =>
        hpf (List.append_eq_nil.mp hc).2
      rw [getLast?_append_of_ne_nil hvp, getLast?_append_of_ne_nil hpf, hx]

/-! ## Small character facts -/

theorem not_nl_of_not_ws {c : Char} (h : pyWs c = false) : c ≠ '\n' := by
  rintro rfl
  simp [pyWs] at h

theorem not_space_of_not_ws {c : Char} (h : pyWs c = false) : c ≠ ' ' := by
  rintro rfl
  simp [pyWs] at h

/-! ## The data-field regex on well-formed lines -/

theorem reDataShape_of_shape {d1 d2 d3 w1 w2 c1 c2 : Char} {rest : Chars}
    (hd1 : d1.isDigit = true) (hd2 : d2.isDigit = true)
    (hd3 : d3.isDigit = true) (hw1 : pyWs w1 = true) (hw2 : pyWs w2 = true)
    (hc1 : c1 ≠ '\n') (hc2 : c2 ≠ '\n') (hr : '\n' ∉ rest) :
    reDataShape ('=' :: d1 :: d2 :: d3 :: w1 :: w2 :: c1 :: c2 :: rest)
      = some ([d1, d2, d3], c1, c2, rest) := by
  simp [reDataShape, dotStar, hd1, hd2, hd3, hw1, hw2, hc1, hc2, hr]

theorem fieldToMrkLine_dataf {t1 t2 t3 i1 i2 : Char}
    {subs : List (Char × Chars)} (htag : 10 ≤ tagNum [t1, t2, t3])
    (hi1 : i1 ≠ ' ') (hi2 : i2 ≠ ' ') :
    fieldToMrkLine (.dataf [t1, t2, t3] i1 i2 subs)
      = '=' :: t1 :: t2 :: t3 :: ' ' :: ' ' :: i1 :: i2 :: partsFlat subs := by
  have hnot : ¬(pyIsdigit [t1, t2, t3] = true ∧ tagNum [t1, t2, t3] < 10) :=
    fun h => absurd h.2 (by omega)
  have hip1 : indDisp i1 = i1 := by unfold indDisp; rw [if_neg hi1]
  have hip2 : indDisp i2 = i2 := by unfold indDisp; rw [if_neg hi2]
  simp [fieldToMrkLine, PField.tag, dataFieldLine, PField.ind1, PField.ind2,
    PField.subsRep, partsOfRep_objList, hip1, hip2, hnot]

theorem pstrip_data_line (t1 t2 t3 i1 i2 : Char)
    {subs : List (Char × Chars)} (hne : subs ≠ [])
    (hsubs : ∀ cv ∈ subs, pstrip cv.2 = cv.2 ∧ cv.2 ≠ []) :
    pstrip ('=' :: t1 :: t2 :: t3 :: ' ' :: ' ' :: i1 :: i2 :: partsFlat subs)
      = '=' :: t1 :: t2 :: t3 :: ' ' :: ' ' :: i1 :: i2 :: partsFlat subs := by
  apply pstrip_eq_self
  · intro c hc
    obtain rfl : '=' = c := by simpa using hc
    decide
  · intro c hc
    have hpf := partsFlat_ne_nil hne
    obtain ⟨x, hx, hwx⟩ := getLast?_partsFlat hne hsubs
    rw [show ('=' :: t1 :: t2 :: t3 :: ' ' :: ' ' :: i1 :: i2 :: partsFlat subs)
        = ['=', t1, t2, t3, ' ', ' ', i1, i2] ++ partsFlat subs from rfl,
      getLast?_append_of_ne_nil hpf, hx] at hc
    obtain rfl : x = c := by simpa using hc
    exact hwx

theorem roundtrip_data_aux (t1 t2 t3 i1 i2 : Char)
    (subs : List (Char × Chars))
    (ht1 : t1.isDigit = true) (ht2 : t2.isDigit = true)
    (ht3 : t3.isDigit = true) (htag : 10 ≤ tagNum [t1, t2, t3])
    (hi1 : pyWs i1 = false) (hi1b : i1 ≠ '\\')
    (hi2 : pyWs i2 = false) (hi2b : i2 ≠ '\\')
    (hne : subs ≠ [])
    (hsubs : ∀ cv ∈ subs, cv.1 ≠ '\n' ∧ cv.2 ≠ [] ∧ '$' ∉ cv.2 ∧
      '\n' ∉ cv.2 ∧ pstrip cv.2 = cv.2) :
    mrk_str_to_field (fieldToMrkLine (.dataf [t1, t2, t3] i1 i2 subs))
      = some (.dataf [t1, t2, t3] i1 i2 subs) := by
  rw [fieldToMrkLine_dataf htag (not_space_of_not_ws hi1)
    (not_space_of_not_ws hi2)]
  have hstrip := pstrip_data_line t1 t2 t3 i1 i2 hne
    (fun cv hcv => ⟨(hsubs cv hcv).2.2.2.2, (hsubs cv hcv).2.1⟩)
  have hsw : startsWithEq
      ('=' :: t1 :: t2 :: t3 :: ' ' :: ' ' :: i1 :: i2 :: partsFlat subs)
      = true := rfl
  have hlen : ¬ (('=' :: t1 :: t2 :: t3 :: ' ' :: ' ' :: i1 :: i2 ::
      partsFlat subs).length < 8) := by
    simp
  have hre := reDataShape_of_shape ht1 ht2 ht3 (show pyWs ' ' = true from rfl)
    (show pyWs ' ' = true from rfl) (not_nl_of_not_ws hi1)
    (not_nl_of_not_ws hi2)
    (nl_not_mem_partsFlat
      (fun cv hcv => ⟨(hsubs cv hcv).1, (hsubs cv hcv).2.2.2.1⟩))
  have hnot : ¬(pyIsdigit [t1, t2, t3] = true ∧ tagNum [t1, t2, t3] < 10) :=
    fun h => absurd h.2 (by omega)
  have hdol : (partsFlat subs).contains '$' = true :=
    contains_eq_true (dollar_mem_partsFlat hne)
  have hscan : scanStep none (partsFlat subs) = subs :=
    scanStep_partsFlat hne (fun cv hcv =>
      ⟨(hsubs cv hcv).2.2.1, (hsubs cv hcv).2.2.2.2, (hsubs cv hcv).2.1⟩)
  unfold mrk_str_to_field
  simp only [hstrip, hsw, hlen, hre, Bool.not_true, decide_False,
    Bool.false_or, if_false, decide_eq_true_eq]
  rw [if_neg hnot]
  simp only [hdol, Bool.not_true, if_false]
  rw [if_neg hi1b, if_neg hi2b, hscan]
  rw [if_neg hne]
  simp

/-- C1 (amended): round-trip for data fields.  For a data field whose tag is
three digits with numeric value at least 10, whose indicators are non-blank,
non-backslash, non-whitespace characters, and whose subfields are non-empty
with codes other than a newline and values that are non-empty, free of `$`
and of newlines, and carry no leading or trailing whitespace, parsing the
serialized tag line reconstructs the field exactly. -/
theorem c1_roundtrip_data_amended (t1 t2 t3 i1 i2 : Char)
    (subs : List (Char × Chars))
    (ht1 : t1.isDigit = true) (ht2 : t2.isDigit = true)
    (ht3 : t3.isDigit = true) (htag : 10 ≤ tagNum [t1, t2, t3])
    (hi1 : pyWs i1 = false) (hi1b : i1 ≠ '\\')
    (hi2 : pyWs i2 = false) (hi2b : i2 ≠ '\\')
    (hne : subs ≠ [])
    (hsubs : ∀ cv ∈ subs, cv.1 ≠ '\n' ∧ cv.2 ≠ [] ∧ '$' ∉ cv.2 ∧
      '\n' ∉ cv.2 ∧ pstrip cv.2 = cv.2) :
    mrk_str_to_field (fieldToMrkLine (.dataf [t1, t2, t3] i1 i2 subs))
      = some (.dataf [t1, t2, t3] i1 i2 subs) :=
  roundtrip_data_aux t1 t2 t3 i1 i2 subs ht1 ht2 ht3 htag hi1 hi1b hi2 hi2b
    hne hsubs

/-- C1 witness: the amended round-trip theorem applied to the concrete field
245 10 $aTitle. -/
theorem c1_roundtrip_data_amended_witness :
    mrk_str_to_field
      (fieldToMrkLine (.dataf ['2', '4', '5'] '1' '0' [('a', "Title".data)]))
      = some (.dataf ['2', '4', '5'] '1' '0' [('a', "Title".data)]) :=
  c1_roundtrip_data_amended '2' '4' '5' '1' '0' [('a', "Title".data)]
    rfl rfl rfl (by decide) rfl (by decide) rfl (by decide) (by decide)
    (by decide)

/-- C1 counterexample: the field 100 11 with the single subfield
(a, " x") is valid in the spec's sense — tag at least 10, non-blank
indicators, one subfield with a lowercase code and a non-empty value — yet
parsing its serialized line yields the subfield value "x": the parser strips
subfield values, so the round-trip loses the leading space. -/
theorem c1_roundtrip_data_counterexample :
    mrk_str_to_field
      (fieldToMrkLine (.dataf ("100".data) '1' '1' [('a', " x".data)]))
      = some (.dataf ("100".data) '1' '1' [('a', "x".data)]) ∧
    mrk_str_to_field
      (fieldToMrkLine (.dataf ("100".data) '1' '1' [('a', " x".data)]))
      ≠ some (.dataf ("100".data) '1' '1' [('a', " x".data)]) := by
  constructor
  · decide
  · decide

theorem fieldToMrkLine_control {t1 t2 t3 : Char} {data : Chars}
    (hd : pyIsdigit [t1, t2, t3] = true) (hlt : tagNum [t1, t2, t3] < 10) :
    fieldToMrkLine (.control [t1, t2, t3] data)
      = '=' :: t1 :: t2 :: t3 :: ' ' :: ' ' :: data := by
  simp [fieldToMrkLine, PField.tag, PField.dataOrEmpty, hd, hlt]

theorem pstrip_ctl_line (t1 t2 t3 : Char) {data : Chars} (hne : data ≠ [])
    (hs : pstrip data = data) :
    pstrip ('=' :: t1 :: t2 :: t3 :: ' ' :: ' ' :: data)
      = '=' :: t1 :: t2 :: t3 :: ' ' :: ' ' :: data := by
  apply pstrip_eq_self
  · intro c hc
    obtain rfl : '=' = c := by simpa using hc
    decide
  · intro c hc
    rw [show ('=' :: t1 :: t2 :: t3 :: ' ' :: ' ' :: data)
        = ['=', t1, t2, t3, ' ', ' '] ++ data from rfl,
      getLast?_append_of_ne_nil hne] at hc
    exact getLast_not_ws_of_pstrip hs c hc

theorem roundtrip_control_aux (t1 t2 t3 : Char) (data : Chars)
    (ht1 : t1.isDigit = true) (ht2 : t2.isDigit = true)
    (ht3 : t3.isDigit = true) (hlt : tagNum [t1, t2, t3] < 10)
    (hlen : 2 ≤ data.length) (hnl : '\n' ∉ data) (hs : pstrip data = data) :
    mrk_str_to_field (fieldToMrkLine (.control [t1, t2, t3] data))
      = some (.control [t1, t2, t3] data) := by
  have hd : pyIsdigit [t1, t2, t3] = true := by
    simp [pyIsdigit, ht1, ht2, ht3]
  rw [fieldToMrkLine_control hd hlt]
  obtain ⟨a, data1, rfl⟩ : ∃ a d1, data = a :: d1 := by
    cases data with
    | nil => simp at hlen
    | cons a d => exact ⟨a, d, rfl⟩
  obtain ⟨b, rest, rfl⟩ : ∃ b r, data1 = b :: r := by
    cases data1 with
    | nil => simp at hlen
    | cons b r => exact ⟨b, r, rfl⟩
  have hstrip := pstrip_ctl_line t1 t2 t3 (List.cons_ne_nil a (b :: rest)) hs
  have ha : a ≠ '\n' := fun h => hnl (h ▸ List.mem_cons_self _ _)
  have hb : b ≠ '\n' := fun h =>
    hnl (List.mem_cons_of_mem _ (h ▸ List.mem_cons_self _ _))
  have hrest : '\n' ∉ rest := fun h =>
    hnl (List.mem_cons_of_mem _ (List.mem_cons_of_mem _ h))
  have hre := reDataShape_of_shape ht1 ht2 ht3 (show pyWs ' ' = true from rfl)
    (show pyWs ' ' = true from rfl) ha hb hrest
  have hsw : startsWithEq
      ('=' :: t1 :: t2 :: t3 :: ' ' :: ' ' :: a :: b :: rest) = true := rfl
  have hlen8 : ¬ (('=' :: t1 :: t2 :: t3 :: ' ' :: ' ' :: a :: b ::
      rest).length < 8) := by
    simp
  unfold mrk_str_to_field
  simp only [hstrip, hsw, hlen8, hre, Bool.not_true, decide_False,
    Bool.false_or, if_false, decide_eq_true_eq]
  simp [hd, hlt, hs]

/-- C4 (amended): round-trip for control fields.  For a three-digit tag with
numeric value below 10 and a data payload of length at least two that is
free of newlines and carries no leading or trailing whitespace, parsing the
serialized control line reconstructs the field exactly. -/
theorem c4_roundtrip_control_amended (t1 t2 t3 : Char) (data : Chars)
    (ht1 : t1.isDigit = true) (ht2 : t2.isDigit = true)
    (ht3 : t3.isDigit = true) (hlt : tagNum [t1, t2, t3] < 10)
    (hlen : 2 ≤ data.length) (hnl : '\n' ∉ data) (hs : pstrip data = data) :
    mrk_str_to_field (fieldToMrkLine (.control [t1, t2, t3] data))
      = some (.control [t1, t2, t3] data) :=
  roundtrip_control_aux t1 t2 t3 data ht1 ht2 ht3 hlt hlen hnl hs

/-- C4 witness: the amended control round-trip applied to field 008 with the
payload "abcdefg". -/
theorem c4_roundtrip_control_amended_witness :
    mrk_str_to_field
      (fieldToMrkLine (.control ['0', '0', '8'] ("abcdefg".data)))
      = some (.control ['0', '0', '8'] ("abcdefg".data)) :=
  c4_roundtrip_control_amended '0' '0' '8' ("abcdefg".data) rfl rfl rfl
    (by decide) (by decide) (by decide) (by decide)

/-- C4 counterexample: the control field 008 with the non-empty single
character payload "x" serializes to the seven character line =008  x, which
the parser rejects for being shorter than eight characters, so the claimed
round-trip over every non-empty payload fails. -/
theorem c4_roundtrip_control_counterexample :
    mrk_str_to_field (fieldToMrkLine (.control ("008".data) ("x".data)))
      = none ∧
    mrk_str_to_field (fieldToMrkLine (.control ("008".data) ("x".data)))
      ≠ some (.control ("008".data) ("x".data)) := by
  constructor
  · decide
  · decide

/-- C2 counterexample: the line =100  1 followed by two backslashes and
$aHong, Gildong parses with indicator 1 in the first position and blank in
the second — the claim states the reverse order [blank, 1], so the claimed
parse result is wrong. -/
theorem c2_example_counterexample :
    mrk_str_to_field ("=100  1\\\\$aHong, Gildong".data)
      = some (.dataf ("100".data) '1' ' ' [('a', "Hong, Gildong".data)]) ∧
    mrk_str_to_field ("=100  1\\\\$aHong, Gildong".data)
      ≠ some (.dataf ("100".data) ' ' '1' [('a', "Hong, Gildong".data)]) := by
  constructor
  · decide
  · decide

/-- C2 (amended): the line parses to the field with indicators [1, blank]
(literal 1 first, blank second), and serializing that field yields
=100  1 backslash $aHong, Gildong: the literal 1 is displayed for the first
indicator and a backslash for the blank second indicator. -/
theorem c2_example_amended :
    mrk_str_to_field ("=100  1\\\\$aHong, Gildong".data)
      = some (.dataf ("100".data) '1' ' ' [('a', "Hong, Gildong".data)]) ∧
    fieldToMrkLine (.dataf ("100".data) '1' ' ' [('a', "Hong, Gildong".data)])
      = ("=100  1\\$aHong, Gildong".data) := by
  constructor
  · decide
  · decide

/-- C8: the line =245 with two backslash indicators and $aTitle parses to a
field whose two indicators are both the blank space, and serializing that
field back displays both indicators as backslashes, reproducing the line
exactly. -/
theorem c8_blank_backslash :
    mrk_str_to_field ("=245  \\\\$aTitle".data)
      = some (.dataf ("245".data) ' ' ' ' [('a', "Title".data)]) ∧
    fieldToMrkLine (.dataf ("245".data) ' ' ' ' [('a', "Title".data)])
      = ("=245  \\\\$aTitle".data) := by
  constructor
  · decide
  · decide

/-- C7: the parser is total — on every input string it returns either a
field or none.  The embedding models every branch of the Python source,
each of which returns a value; no branch can raise on string input, so
totality of this function over all of `Chars` is the no-exception
property. -/
theorem c7_parser_total (line : Chars) :
    mrk_str_to_field line = none ∨ ∃ f, mrk_str_to_field line = some f := by
  cases h : mrk_str_to_field line with
  | none => exact Or.inl rfl
  | some f => exact Or.inr ⟨f, rfl⟩

theorem pairUp_flatPairs (subs : List (Char × Chars)) :
    pairUp (flatPairs subs) = subs.map (fun cv => ([cv.1], cv.2)) := by
  induction subs with
  | nil => rfl
  | cons cv r ih =>
    obtain ⟨c, v⟩ := cv
    simp [flatPairs, pairUp, ih]

theorem foldl_flat_general (l : List (Char × Chars)) :
    ∀ acc : Chars,
      (l.map (fun cv => ([cv.1], cv.2))).foldl
        (fun a cv => a ++ '$' :: (cv.1 ++ cv.2)) acc = acc ++ partsFlat l := by
  induction l with
  | nil => intro acc; simp [partsFlat]
  | cons cv r ih =>
    intro acc
    obtain ⟨c, v⟩ := cv
    rw [List.map_cons, List.foldl_cons, ih, show partsFlat ((c, v) :: r)
      = '$' :: c :: (v ++ partsFlat r) from rfl]
    simp

theorem partsOfRep_flatPairs (subs : List (Char × Chars)) :
    partsOfRep (.flatList (flatPairs subs)) = partsFlat subs := by
  rw [show partsOfRep (.flatList (flatPairs subs))
      = (pairUp (flatPairs subs)).foldl
        (fun a cv => a ++ '$' :: (cv.1 ++ cv.2)) [] from rfl]
  rw [pairUp_flatPairs]
  simpa using foldl_flat_general subs []

/-- C10: for a data field (tag numerically at least 10) the serializer emits
the identical tag line whether the subfields are stored as the structured
object list or as the old flat alternating [code, value, ...] list: the two
internal representations are observationally equivalent through
serialization. -/
theorem c10_subfield_reps (tag : Chars) (i1 i2 : Char)
    (subs : List (Char × Chars)) (htag : 10 ≤ tagNum tag) :
    dataFieldLine tag i1 i2 (.objList subs)
      = dataFieldLine tag i1 i2 (.flatList (flatPairs subs)) := by
  unfold dataFieldLine
  rw [partsOfRep_objList, partsOfRep_flatPairs]

/-- C10 witness: the representation equivalence applied to field 245 with
subfields $aX$bY. -/
theorem c10_subfield_reps_witness :
    dataFieldLine ("245".data) '1' '0'
      (.objList [('a', "X".data), ('b', "Y".data)])
      = dataFieldLine ("245".data) '1' '0'
        (.flatList (flatPairs [('a', "X".data), ('b', "Y".data)])) :=
  c10_subfield_reps ("245".data) '1' '0' [('a', "X".data), ('b', "Y".data)]
    (by decide)

/-! ## The 008 builder -/

theorem pad_length (s : Chars) (n : Nat) (fill : Char) :
    (pad s n fill).length = n := by
  unfold pad
  rw [List.length_take, List.length_append, List.length_replicate]
  exact Nat.min_eq_left (Nat.le_add_left n _)

/-- C3: whenever date_entered is exactly six digits and date1 is exactly
four characters, the 008 builder succeeds with a body of exactly 40
characters whose positions 29 and 30 are the character 0 and whose position
31 is 0 or 1; in particular the defensive final 40-character length check
never fires (the result is `ok`, not the length-check error). -/
theorem c3_build008_fixed_width (date_entered date1 country3 lang3 date2
    illus4 has_index lit_form bio type_of_date modified_record
    cataloging_src : Chars)
    (h6 : date_entered.length = 6)
    (hdig : date_entered.all Char.isDigit = true)
    (h4 : date1.length = 4) :
    ∃ body, build_008_kormarc_bk date_entered date1 country3 lang3 date2
        illus4 has_index lit_form bio type_of_date modified_record
        cataloging_src = .ok body ∧
      body.length = 40 ∧ body.getD 29 ' ' = '0' ∧ body.getD 30 ' ' = '0' ∧
      (body.getD 31 ' ' = '0' ∨ body.getD 31 ' ' = '1') := by
  have hne : date_entered ≠ [] := by
    intro h
    rw [h] at h6
    simp at h6
  have hpd : pyIsdigit date_entered = true := by
    unfold pyIsdigit
    rw [hdig]
    cases date_entered with
    | nil => exact absurd rfl hne
    | cons a t => rfl
  have hc1 : ¬(date_entered.length ≠ 6 ∨ pyIsdigit date_entered = false) := by
    rintro (h | h)
    · exact h h6
    · rw [hpd] at h
      cases h
  have hc2 : ¬(date1.length ≠ 4) := fun h => h h4
  have hhi : (if has_index = ['0'] ∨ has_index = ['1'] then has_index
      else ['0']).length = 1 := by
    by_cases h : has_index = ['0'] ∨ has_index = ['1']
    · rw [if_pos h]
      rcases h with rfl | rfl <;> rfl
    · rw [if_neg h]
      rfl
  have h40 : (date_entered ++ pad type_of_date 1 ' ' ++ date1 ++
      pad date2 4 ' ' ++ pad country3 3 ' ' ++ pad illus4 4 ' ' ++
      List.replicate 4 ' ' ++ List.replicate 2 ' ' ++
      pad modified_record 1 ' ' ++ ['0'] ++ ['0'] ++
      (if has_index = ['0'] ∨ has_index = ['1'] then has_index else ['0']) ++
      pad cataloging_src 1 ' ' ++ pad lit_form 1 ' ' ++ pad bio 1 ' ' ++
      pad lang3 3 ' ' ++ List.replicate 2 ' ').length = 40 := by
    simp [List.length_append, pad_length, List.length_replicate, h6, h4, hhi]
  have hsplit : (date_entered ++ pad type_of_date 1 ' ' ++ date1 ++
      pad date2 4 ' ' ++ pad country3 3 ' ' ++ pad illus4 4 ' ' ++
      List.replicate 4 ' ' ++ List.replicate 2 ' ' ++
      pad modified_record 1 ' ' ++ ['0'] ++ ['0'] ++
      (if has_index = ['0'] ∨ has_index = ['1'] then has_index else ['0']) ++
      pad cataloging_src 1 ' ' ++ pad lit_form 1 ' ' ++ pad bio 1 ' ' ++
      pad lang3 3 ' ' ++ List.replicate 2 ' ')
      = (date_entered ++ (pad type_of_date 1 ' ' ++ (date1 ++
        (pad date2 4 ' ' ++ (pad country3 3 ' ' ++ (pad illus4 4 ' ' ++
        (List.replicate 4 ' ' ++ (List.replicate 2 ' ' ++
        pad modified_record 1 ' ')))))))) ++
        ('0' :: '0' ::
          ((if has_index = ['0'] ∨ has_index = ['1'] then has_index
            else ['0']) ++
          (pad cataloging_src 1 ' ' ++ (pad lit_form 1 ' ' ++
          (pad bio 1 ' ' ++ (pad lang3 3 ' ' ++
          List.replicate 2 ' ')))))) := by
    simp [List.append_assoc]
  have hAlen : (date_entered ++ (pad type_of_date 1 ' ' ++ (date1 ++
      (pad date2 4 ' ' ++ (pad country3 3 ' ' ++ (pad illus4 4 ' ' ++
      (List.replicate 4 ' ' ++ (List.replicate 2 ' ' ++
      pad modified_record 1 ' ')))))))).length = 29 := by
    simp [List.length_append, pad_length, List.length_replicate, h6, h4]
  refine ⟨date_entered ++ pad type_of_date 1 ' ' ++ date1 ++
      pad date2 4 ' ' ++ pad country3 3 ' ' ++ pad illus4 4 ' ' ++
      List.replicate 4 ' ' ++ List.replicate 2 ' ' ++
      pad modified_record 1 ' ' ++ ['0'] ++ ['0'] ++
      (if has_index = ['0'] ∨ has_index = ['1'] then has_index else ['0']) ++
      pad cataloging_src 1 ' ' ++ pad lit_form 1 ' ' ++ pad bio 1 ' ' ++
      pad lang3 3 ' ' ++ List.replicate 2 ' ', ?_, h40, ?_, ?_, ?_⟩
  · unfold build_008_kormarc_bk
    rw [if_neg hc1, if_neg hc2]
    simp only [h40]
    simp
  · rw [hsplit, List.getD_append_right _ _ _ _ (le_of_eq hAlen), hAlen]
    simp
  · rw [hsplit, List.getD_append_right _ _ _ _
      (by rw [hAlen]; omega), hAlen]
    simp
  · rw [hsplit, List.getD_append_right _ _ _ _
      (by rw [hAlen]; omega), hAlen]
    rw [show (31 - 29 : Nat) = 2 from rfl]
    rw [List.getD_cons_succ, List.getD_cons_succ]
    rw [List.getD_append _ _ _ _ (by rw [hhi]; omega)]
    by_cases h : has_index = ['0'] ∨ has_index = ['1']
    · rcases h with rfl | rfl
      · left
        decide
      · right
        decide
    · rw [if_neg h]
      left
      rfl

/-- C3 witness: the fixed-width theorem applied to the concrete call with
date entered 241231 and publication year 2024. -/
theorem c3_build008_fixed_width_witness :
    ∃ body, build_008_kormarc_bk ("241231".data) ("2024".data) ("ulk".data)
        ("kor".data) [] [] ("0".data) [' '] [' '] ("s".data) [' ']
        ("a".data) = .ok body ∧
      body.length = 40 ∧ body.getD 29 ' ' = '0' ∧ body.getD 30 ' ' = '0' ∧
      (body.getD 31 ' ' = '0' ∨ body.getD 31 ' ' = '1') :=
  c3_build008_fixed_width ("241231".data) ("2024".data) ("ulk".data)
    ("kor".data) [] [] ("0".data) [' '] [' '] ("s".data) [' '] ("a".data)
    rfl rfl rfl

/-- C5: the 008 builder signals an error whenever date_entered is not
exactly six digits or date1 is not exactly four characters. -/
theorem c5_build008_validation (date_entered date1 country3 lang3 date2
    illus4 has_index lit_form bio type_of_date modified_record
    cataloging_src : Chars)
    (h : ¬(date_entered.length = 6 ∧ date_entered.all Char.isDigit = true) ∨
      date1.length ≠ 4) :
    ∃ msg, build_008_kormarc_bk date_entered date1 country3 lang3 date2
        illus4 has_index lit_form bio type_of_date modified_record
        cataloging_src = .error msg := by
  by_cases hc : date_entered.length ≠ 6 ∨ pyIsdigit date_entered = false
  · refine ⟨("date_entered는 YYMMDD 6자리 숫자여야 합니다.".data), ?_⟩
    unfold build_008_kormarc_bk
    rw [if_pos hc]
  · push_neg at hc
    obtain ⟨hl6, hpd⟩ := hc
    have hpd' : pyIsdigit date_entered = true := by
      revert hpd
      cases pyIsdigit date_entered <;> simp
    have hd4 : date1.length ≠ 4 := by
      rcases h with h | h
      · exfalso
        apply h
        refine ⟨hl6, ?_⟩
        unfold pyIsdigit at hpd'
        simp at hpd'
        simp only [List.all_eq_true]
        exact hpd'.2
      · exact h
    have hneg : ¬(date_entered.length ≠ 6 ∨
        pyIsdigit date_entered = false) := by
      rintro (h' | h')
      · exact h' hl6
      · rw [hpd'] at h'
        cases h'
    refine ⟨("date1(출판연도)은 4자리여야 합니다.".data), ?_⟩
    unfold build_008_kormarc_bk
    rw [if_neg hneg, if_pos hd4]

/-- C5 witness: the validation theorem applied to the two concrete calls of
the claim — date_entered of length four, and date1 of length two. -/
theorem c5_build008_validation_witness :
    (∃ msg, build_008_kormarc_bk ("2024".data) ("2024".data) ("ulk".data)
        ("kor".data) [] [] ("0".data) [' '] [' '] ("s".data) [' ']
        ("a".data) = .error msg) ∧
    (∃ msg, build_008_kormarc_bk ("241231".data) ("99".data) ("ulk".data)
        ("kor".data) [] [] ("0".data) [' '] [' '] ("s".data) [' ']
        ("a".data) = .error msg) :=
  ⟨c5_build008_validation ("2024".data) ("2024".data) ("ulk".data)
      ("kor".data) [] [] ("0".data) [' '] [' '] ("s".data) [' '] ("a".data)
      (Or.inl (by decide)),
    c5_build008_validation ("241231".data) ("99".data) ("ulk".data)
      ("kor".data) [] [] ("0".data) [' '] [' '] ("s".data) [' '] ("a".data)
      (Or.inr (by decide))⟩

/-! ## Rejection behaviour of the mrk_helpers parser -/

theorem reDataShape_some_shape {s : Chars} {r : Chars × Char × Char × Chars}
    (h : reDataShape s = some r) : startsWithEq s = true ∧ 8 ≤ s.length := by
  unfold reDataShape at h
  split at h
  · constructor
    · rfl
    · simp
  · cases h

/-- C6 counterexample: the line =008  abc matches the data-field shape (tag
008, indicator characters a and b, tail c) and its tail contains no `$`,
yet the parser does not return none — it returns the control field 008 with
payload abc, because a tag below 10 in data-field shape is diverted to the
control branch.  The claim as stated omits the tag at least 10
restriction. -/
theorem c6_rejection_counterexample :
    reDataShape (pstrip ("=008  abc".data))
      = some (("008".data), 'a', 'b', ("c".data)) ∧
    ("c".data).contains '$' = false ∧
    mrk_str_to_field ("=008  abc".data)
      = some (.control ("008".data) ("abc".data)) := by
  refine ⟨by decide, by decide, by decide⟩

/-- C6 (amended): the parser returns none for every string that, after
trimming, does not start with `=`, or is shorter than eight characters, or
matches the data-field shape with a tag numerically at least 10 and a tail
containing no `$`. -/
theorem c6_rejection_amended (line : Chars)
    (h : startsWithEq (pstrip line) = false ∨ (pstrip line).length < 8 ∨
      ∃ tag c1 c2 tail,
        reDataShape (pstrip line) = some (tag, c1, c2, tail) ∧
        10 ≤ tagNum tag ∧ tail.contains '$' = false) :
    mrk_str_to_field line = none := by
  rcases h with h | h | ⟨tag, c1, c2, tail, hre, htag, hdol⟩
  · unfold mrk_str_to_field
    simp [h]
  · unfold mrk_str_to_field
    simp [h]
  · obtain ⟨hsw, hlen⟩ := reDataShape_some_shape hre
    have hnlt : ¬ ((pstrip line).length < 8) := by omega
    have hnot : ¬(pyIsdigit tag = true ∧ tagNum tag < 10) :=
      fun hand => absurd hand.2 (by omega)
    unfold mrk_str_to_field
    simp only [hsw, hnlt, hre, Bool.not_true, decide_False, Bool.false_or,
      if_false, decide_eq_true_eq]
    rw [if_neg hnot]
    have hmem : '$' ∉ tail := fun hm => by
      rw [contains_eq_true hm] at hdol
      cases hdol
    simp [hmem]

/-- C6 witness: the amended rejection theorem applied to a line without `=`
and to a data-field-shaped line whose tail has no `$`. -/
theorem c6_rejection_amended_witness :
    mrk_str_to_field ("abc".data) = none ∧
    mrk_str_to_field ("=245  11abc".data) = none :=
  ⟨c6_rejection_amended ("abc".data) (Or.inl (by decide)),
    c6_rejection_amended ("=245  11abc".data)
      (Or.inr (Or.inr ⟨("245".data), '1', '1', ("abc".data), by decide,
        by decide, by decide⟩))⟩

/-! ## Equations of the utils-parser split and loop -/

theorem prependHead_ne_nil (x : Chars) (ps : List Chars) :
    prependHead x ps ≠ [] := by
  cases ps <;> simp [prependHead]

theorem prependHead_nil_of_ne {ps : List Chars} (h : ps ≠ []) :
    prependHead [] ps = ps := by
  cases ps with
  | nil => exact absurd rfl h
  | cons p t => simp [prependHead]

theorem prependHead_prependHead (x y : Chars) (ps : List Chars) :
    prependHead x (prependHead y ps) = prependHead (x ++ y) ps := by
  cases ps <;> simp [prependHead, List.append_assoc]

theorem splitDL_dollar_letter {c2 : Char} (h : isAsciiLetter c2 = true)
    (rest2 : Chars) :
    splitDL ('$' :: c2 :: rest2) = [] :: ['$', c2] :: splitDL rest2 := by
  rw [splitDL.eq_def]
  simp [h]

theorem splitDL_dollar_nonletter {c2 : Char} (h : isAsciiLetter c2 = false)
    (rest2 : Chars) :
    splitDL ('$' :: c2 :: rest2)
      = prependHead ['$'] (splitDL (c2 :: rest2)) := by
  rw [splitDL.eq_def]
  simp [h]

theorem splitDL_other {c : Char} (h : c ≠ '$') (rest : Chars) :
    splitDL (c :: rest) = prependHead [c] (splitDL rest) := by
  rw [splitDL.eq_def]
  simp [h]

theorem splitDL_ne_nil (l : Chars) : splitDL l ≠ [] := by
  cases l with
  | nil => simp [splitDL]
  | cons c rest =>
    by_cases hc : c = '$'
    · subst hc
      cases rest with
      | nil => simp [splitDL]
      | cons c2 r2 =>
        cases h2 : isAsciiLetter c2 with
        | true => rw [splitDL_dollar_letter h2]; simp
        | false =>
          rw [splitDL_dollar_nonletter h2]
          exact prependHead_ne_nil _ _
    · rw [splitDL_other hc]
      exact prependHead_ne_nil _ _

theorem splitDL_no_dollar_append {v : Chars} (hv : '$' ∉ v) (l : Chars) :
    splitDL (v ++ l) = prependHead v (splitDL l) := by
  induction v with
  | nil =>
    rw [List.nil_append, prependHead_nil_of_ne (splitDL_ne_nil l)]
  | cons a t ih =>
    have ha : a ≠ '$' := fun h => hv (h ▸ List.mem_cons_self a t)
    rw [List.cons_append, splitDL_other ha,
      ih (fun h => hv (List.mem_cons_of_mem _ h)), prependHead_prependHead]
    rfl

theorem splitDL_partsFlat {subs : List (Char × Chars)}
    (h : ∀ cv ∈ subs, isAsciiLetter cv.1 = true ∧ '$' ∉ cv.2) :
    splitDL (partsFlat subs) = [] :: piecesTail subs := by
  induction subs with
  | nil => rfl
  | cons cv r ih =>
    obtain ⟨c, v⟩ := cv
    have hc := h (c, v) (List.mem_cons_self _ _)
    rw [show partsFlat ((c, v) :: r) = '$' :: c :: (v ++ partsFlat r)
      from rfl]
    rw [splitDL_dollar_letter hc.1, splitDL_no_dollar_append hc.2,
      ih (fun cv hcv => h cv (List.mem_cons_of_mem _ hcv))]
    rw [show piecesTail ((c, v) :: r) = ['$', c] :: v :: piecesTail r
      from rfl]
    simp [prependHead]

theorem utilsLoop_nil (cur : Option Char) (buf : Chars) :
    utilsLoop cur buf [] = flushU cur buf := rfl

theorem utilsLoop_empty_piece (cur : Option Char) (buf : Chars)
    (ps : List Chars) : utilsLoop cur buf ([] :: ps) = utilsLoop cur buf ps := by
  rw [utilsLoop.eq_def]
  simp

theorem utilsLoop_delim (cur : Option Char) (buf : Chars) (x : Char)
    (ps : List Chars) :
    utilsLoop cur buf (['$', x] :: ps)
      = flushU cur buf ++ utilsLoop (some x) [] ps := by
  rw [utilsLoop.eq_def]
  simp

theorem utilsLoop_text {p : Chars} (hne : p ≠ [])
    (hnd : ¬(p.length = 2 ∧ p.head? = some '$')) (cur : Option Char)
    (buf : Chars) (ps : List Chars) :
    utilsLoop cur buf (p :: ps) = utilsLoop cur (buf ++ p) ps := by
  rw [utilsLoop.eq_def]
  simp [hne, hnd]

theorem not_delim_of_no_dollar {v : Chars} (hne : v ≠ []) (hd : '$' ∉ v) :
    ¬(v.length = 2 ∧ v.head? = some '$') := by
  rintro ⟨hl, hh⟩
  cases v with
  | nil => exact hne rfl
  | cons a t =>
    have : a = '$' := by simpa using hh
    exact hd (this ▸ List.mem_cons_self a t)

theorem utilsLoop_pieces {subs : List (Char × Chars)}
    (hsubs : ∀ cv ∈ subs, cv.2 ≠ [] ∧ '$' ∉ cv.2 ∧ pstrip cv.2 = cv.2) :
    ∀ (c : Char) (v : Chars), v ≠ [] → '$' ∉ v → pstrip v = v →
      utilsLoop (some c) v (piecesTail subs) = (c, v) :: subs := by
  induction subs with
  | nil =>
    intro c v hv hd hs
    rw [show piecesTail [] = [] from rfl, utilsLoop_nil]
    simp [flushU, hv, hs]
  | cons cv r ih =>
    intro c v hv hd hs
    obtain ⟨c2, v2⟩ := cv
    have h2 := hsubs (c2, v2) (List.mem_cons_self _ _)
    rw [show piecesTail ((c2, v2) :: r) = ['$', c2] :: v2 :: piecesTail r
      from rfl]
    rw [utilsLoop_delim, utilsLoop_text h2.1
      (not_delim_of_no_dollar h2.1 h2.2.1), List.nil_append]
    rw [ih (fun cv hcv => hsubs cv (List.mem_cons_of_mem _ hcv)) c2 v2 h2.1
      h2.2.1 h2.2.2]
    simp [flushU, hv, hs]

theorem utilsLoop_splitDL {subs : List (Char × Chars)} (hne : subs ≠ [])
    (hsubs : ∀ cv ∈ subs, isAsciiLetter cv.1 = true ∧ cv.2 ≠ [] ∧
      '$' ∉ cv.2 ∧ pstrip cv.2 = cv.2) :
    utilsLoop none [] (splitDL (partsFlat subs)) = subs := by
  rw [splitDL_partsFlat (fun cv hcv => ⟨(hsubs cv hcv).1,
    (hsubs cv hcv).2.2.1⟩), utilsLoop_empty_piece]
  cases subs with
  | nil => exact absurd rfl hne
  | cons cv r =>
    obtain ⟨c, v⟩ := cv
    have h1 := hsubs (c, v) (List.mem_cons_self _ _)
    rw [show piecesTail ((c, v) :: r) = ['$', c] :: v :: piecesTail r
      from rfl]
    rw [utilsLoop_delim, show flushU none [] = [] from rfl,
      List.nil_append, utilsLoop_text h1.2.1
        (not_delim_of_no_dollar h1.2.1 h1.2.2.1), List.nil_append]
    exact utilsLoop_pieces (fun cv hcv => ⟨(hsubs cv (List.mem_cons_of_mem _
      hcv)).2.1, (hsubs cv (List.mem_cons_of_mem _ hcv)).2.2.1,
      (hsubs cv (List.mem_cons_of_mem _ hcv)).2.2.2⟩) c v h1.2.1 h1.2.2.1
      h1.2.2.2

theorem list_len3 {l : Chars} (h : l.length = 3) :
    ∃ a b c, l = [a, b, c] := by
  cases l with
  | nil => simp at h
  | cons a l1 =>
    cases l1 with
    | nil => simp at h
    | cons b l2 =>
      cases l2 with
      | nil => simp at h
      | cons c l3 =>
        cases l3 with
        | nil => exact ⟨a, b, c, rfl⟩
        | cons d l4 => simp at h

theorem not_nl_of_letter {c : Char} (h : isAsciiLetter c = true) :
    c ≠ '\n' := by
  rintro rfl
  exact absurd h (by decide)

/-- C9 counterexample: the two parser copies are not extensionally equal —
on the input =008  x (length seven) the mrk_helpers parser returns none
(its minimum line length is eight) while the utils copy (minimum six)
returns the control field 008 with payload x. -/
theorem c9_parsers_counterexample :
    mrk_str_to_field ("=008  x".data) = none ∧
    utils_mrk_str_to_field ("=008  x".data)
      = some (.control ("008".data) ("x".data)) ∧
    utils_mrk_str_to_field ("=008  x".data)
      ≠ mrk_str_to_field ("=008  x".data) := by
  refine ⟨by decide, by decide, by decide⟩

/-- C9 (amended): the two parser copies agree — return the same field — on
the serialized line of every field in the canonical class `c9Class`
(control fields with a three-digit tag below 10 and a `$`-free,
newline-free, strip-invariant payload of length at least two; data fields
with tag at least 10, non-whitespace non-backslash indicators, and
subfields with ASCII-letter codes and non-empty, `$`-free, newline-free,
strip-invariant values).  They are not equal on all inputs (see the
counterexample), so the near-duplicate copies collapse only on this
canonical domain. -/
theorem c9_parsers_agree_amended (f : PField) (h : c9Class f) :
    utils_mrk_str_to_field (fieldToMrkLine f)
      = mrk_str_to_field (fieldToMrkLine f) := by
  cases f with
  | control tag data =>
    obtain ⟨hlen3, hdig, hlt, hlen2, hdol, hnl, hstr⟩ := h
    obtain ⟨t1, t2, t3, rfl⟩ := list_len3 hlen3
    have ht1 : t1.isDigit = true := hdig t1 (by simp)
    have ht2 : t2.isDigit = true := hdig t2 (by simp)
    have ht3 : t3.isDigit = true := hdig t3 (by simp)
    rw [roundtrip_control_aux t1 t2 t3 data ht1 ht2 ht3 hlt hlen2 hnl hstr]
    have hd : pyIsdigit [t1, t2, t3] = true := by
      simp [pyIsdigit, ht1, ht2, ht3]
    rw [fieldToMrkLine_control hd hlt]
    obtain ⟨a, data1, rfl⟩ : ∃ a d1, data = a :: d1 := by
      cases data with
      | nil => simp at hlen2
      | cons a d => exact ⟨a, d, rfl⟩
    have hstrip := pstrip_ctl_line t1 t2 t3 (List.cons_ne_nil a data1) hstr
    have hdol' : ¬('$' = a) ∧ '$' ∉ data1 := by
      simp only [List.mem_cons, not_or] at hdol
      exact hdol
    have hctl : reCtlNoDollar
        ('=' :: t1 :: t2 :: t3 :: ' ' :: ' ' :: a :: data1) = true := by
      simp [reCtlNoDollar, ht1, ht2, ht3, hdol'.1, hdol'.2,
        show pyWs ' ' = true from rfl]
    have hlen6 : ¬ (('=' :: t1 :: t2 :: t3 :: ' ' :: ' ' :: a ::
        data1).length < 6) := by
      simp
    unfold utils_mrk_str_to_field
    simp only [hstrip]
    simp [startsWithEq, hlen6, hctl, hlt]
  | dataf tag i1 i2 subs =>
    obtain ⟨hlen3, hdig, hge, hi1, hi1b, hi2, hi2b, hne, hsubs⟩ := h
    obtain ⟨t1, t2, t3, rfl⟩ := list_len3 hlen3
    have ht1 : t1.isDigit = true := hdig t1 (by simp)
    have ht2 : t2.isDigit = true := hdig t2 (by simp)
    have ht3 : t3.isDigit = true := hdig t3 (by simp)
    rw [roundtrip_data_aux t1 t2 t3 i1 i2 subs ht1 ht2 ht3 hge hi1 hi1b hi2
      hi2b hne (fun cv hcv => ⟨not_nl_of_letter (hsubs cv hcv).1,
        (hsubs cv hcv).2.1, (hsubs cv hcv).2.2.1, (hsubs cv hcv).2.2.2.1,
        (hsubs cv hcv).2.2.2.2⟩)]
    rw [fieldToMrkLine_dataf hge (not_space_of_not_ws hi1)
      (not_space_of_not_ws hi2)]
    have hstrip := pstrip_data_line t1 t2 t3 i1 i2 hne
      (fun cv hcv => ⟨(hsubs cv hcv).2.2.2.2, (hsubs cv hcv).2.1⟩)
    have hdolr : (i1 :: i2 :: partsFlat subs).contains '$' = true :=
      contains_eq_true (List.mem_cons_of_mem _ (List.mem_cons_of_mem _
        (dollar_mem_partsFlat hne)))
    have hctlF : reCtlNoDollar ('=' :: t1 :: t2 :: t3 :: ' ' :: ' ' :: i1 ::
        i2 :: partsFlat subs) = false := by
      simp [reCtlNoDollar]
      intro _ _ _ _ _ _
      exact dollar_mem_partsFlat hne
    have hre := reDataShape_of_shape ht1 ht2 ht3
      (show pyWs ' ' = true from rfl) (show pyWs ' ' = true from rfl)
      (not_nl_of_not_ws hi1) (not_nl_of_not_ws hi2)
      (nl_not_mem_partsFlat (fun cv hcv =>
        ⟨not_nl_of_letter (hsubs cv hcv).1, (hsubs cv hcv).2.2.2.1⟩))
    have hloop : utilsLoop none [] (splitDL (partsFlat subs)) = subs :=
      utilsLoop_splitDL hne (fun cv hcv => ⟨(hsubs cv hcv).1,
        (hsubs cv hcv).2.1, (hsubs cv hcv).2.2.1, (hsubs cv hcv).2.2.2.2⟩)
    have hlen6 : ¬ (('=' :: t1 :: t2 :: t3 :: ' ' :: ' ' :: i1 :: i2 ::
        partsFlat subs).length < 6) := by
      simp
    unfold utils_mrk_str_to_field
    simp only [hstrip]
    simp [startsWithEq, hlen6, hctlF, hre, hi1b, hi2b, hloop]

/-- C9 witness: the agreement theorem applied to the concrete field
245 10 $aTitle. -/
theorem c9_parsers_agree_amended_witness :
    utils_mrk_str_to_field
      (fieldToMrkLine (.dataf ("245".data) '1' '0' [('a', "Title".data)]))
      = mrk_str_to_field
        (fieldToMrkLine (.dataf ("245".data) '1' '0'
          [('a', "Title".data)])) :=
  c9_parsers_agree_amended
    (.dataf ("245".data) '1' '0' [('a', "Title".data)])
    (by simp only [c9Class]; decide)
